import Mathlib

/-!
Verification of the iAgent file-storage service
(`apps/backend/src/app/services/file.service.ts`).

The service is embedded shallowly:

* A GridFS metadata document (`fs.files` entry) is a `FileDoc`; the bucket
  contents are a `Store` (a list of documents in insertion order plus the
  next fresh `_id`).  Mongo `ObjectId`s are modelled as `Nat`; an incoming
  id *string* is an `OidStr := Option Nat` (`none` is a string that does
  not parse as an `ObjectId`, i.e. the constructor throws).
* The open `metadata` object is a `Metadata` record with `Option` fields;
  a JavaScript spread `\x7b...a, ...b\x7d` is the field-wise merge `mergeMeta`
  (a key present in `b` wins).
* `createHash('sha256').update(buf).digest('hex')` is modelled by the
  deterministic digest `sha256` (the claims depend only on the digest
  being a deterministic function of the bytes).
* Dates (`new Date()`) are `Nat` instants passed in explicitly as `now`.
* Stateful operations have type `... → Store → Except FsError α × Store`,
  so a thrown error also reports the (unchanged or partially changed)
  store, letting "no write occurred" be stated.
* Mongo query semantics used by the service are embedded directly:
  `$gt`/`$lt`/equality comparisons never match a document whose field is
  missing, sorting treats a missing field as null (smallest), `limit(0)`
  means no limit, and `find` scans in insertion order.
* `new RegExp(escapeRegex(q), 'i')` used as a Mongo match is a
  case-insensitive literal substring test, embedded as `containsCI`.
  JavaScript `String.prototype.trim` is `trimStr`.
-/

/-- Lower-case a string character-wise (embeds the effect of the
case-insensitive regex flag). -/
def lowerChars (s : String) : List Char := s.data.map Char.toLower

/-- `isSubLst needle hay`: `needle` occurs as a contiguous sublist of `hay`. -/
def isSubLst (needle : List Char) : List Char → Bool
  | [] => needle.isEmpty
  | c :: t => needle.isPrefixOf (c :: t) || isSubLst needle t

/-- Case-insensitive literal substring match: the effect of matching a
string field against `new RegExp(escapeRegex(needle), 'i')`. -/
def containsCI (hay needle : String) : Bool :=
  isSubLst (lowerChars needle) (lowerChars hay)

/-- JavaScript whitespace test (the characters relevant to `trim`). -/
def isWs (c : Char) : Bool := c == ' ' || c == '\t' || c == '\n' || c == '\r'

/-- `String.prototype.trim`: strip whitespace from both ends. -/
def trimStr (s : String) : String :=
  String.mk (((s.data.dropWhile isWs).reverse.dropWhile isWs).reverse)

/-- Deterministic stand-in for the hex SHA-256 digest of the content
bytes: the claims depend only on the digest being a deterministic
function of the bytes, so the digest value is represented by the byte
sequence itself. -/
def sha256 (b : List Nat) : List Nat := b

/-- An id string as received over the wire: `some n` parses as an
`ObjectId`, `none` makes `new ObjectId(...)` throw. -/
abbrev OidStr := Option Nat

/-- The open `metadata` sub-document, restricted to the keys the service
reads or writes.  `none` = key absent. -/
structure Metadata where
  originalName : Option String := none
  mimetype : Option String := none
  msize : Option Nat := none
  hash : Option (List Nat) := none
  uploadedAt : Option Nat := none
  chatId : Option String := none
  userId : Option String := none
  description : Option String := none
  updatedAt : Option Nat := none
  originalReplacedId : Option Nat := none
  deriving Repr, DecidableEq

/-- JavaScript object spread `\x7b...base, ...patch\x7d`: a key present in
`patch` overrides `base`, field-wise. -/
def mergeMeta (base patch : Metadata) : Metadata where
  originalName := patch.originalName <|> base.originalName
  mimetype := patch.mimetype <|> base.mimetype
  msize := patch.msize <|> base.msize
  hash := patch.hash <|> base.hash
  uploadedAt := patch.uploadedAt <|> base.uploadedAt
  chatId := patch.chatId <|> base.chatId
  userId := patch.userId <|> base.userId
  description := patch.description <|> base.description
  updatedAt := patch.updatedAt <|> base.updatedAt
  originalReplacedId := patch.originalReplacedId <|> base.originalReplacedId

/-- One `fs.files` document plus its chunk data. -/
structure FileDoc where
  _id : Nat
  filename : String
  length : Nat
  uploadDate : Nat
  metadata : Metadata
  content : List Nat := []
  deriving Repr, DecidableEq

/-- The GridFS bucket: documents in insertion order, and the next fresh id
the engine will assign. -/
structure Store where
  docs : List FileDoc
  nextId : Nat
  deriving Repr, DecidableEq

/-- The multer-style uploaded file object. -/
structure UFile where
  originalname : String
  mimetype : String
  size : Nat
  buffer : List Nat
  deriving Repr, DecidableEq

/-- `environment.fileUpload`. -/
structure Env where
  maxFileSize : Nat
  acceptedTypes : List String
  deriving Repr, DecidableEq

/-- Errors thrown by the service, structured: `sizeExceeded` and
`typeNotAllowed` are the two `BadRequestException`s of `validateFile`
(carrying the data interpolated into their messages — in particular the
configured limit), `noFile` is the missing-file `BadRequestException`,
`notFound` is `NotFoundException`, and `bsonParse` is the raw error the
`ObjectId` constructor throws on a malformed id string when no
surrounding `try/catch` converts it. -/
inductive FsError where
  | noFile
  | sizeExceeded (size maxFileSize : Nat)
  | typeNotAllowed (mimetype : String) (accepted : List String)
  | notFound
  | bsonParse
  deriving Repr, DecidableEq

/-- `FileUploadResult`. -/
structure FileUploadResult where
  id : Nat
  filename : String
  size : Nat
  mimetype : String
  uploadDate : Nat
  deriving Repr, DecidableEq

/-- `FileInfo`. -/
structure FileInfo where
  id : Nat
  filename : String
  size : Nat
  mimetype : String
  uploadDate : Nat
  metadata : Metadata
  deriving Repr, DecidableEq

/-- `file.metadata?.mimetype || 'application/octet-stream'` — the empty
string is falsy in JavaScript, so it also falls back to the default. -/
def projMime (m : Option String) : String :=
  match m with
  | some s => if s = "" then "application/octet-stream" else s
  | none => "application/octet-stream"

/-- The `FileInfo` projection applied to a document by `getFileInfo`,
`listFiles`, `listFilesAdvanced`, `renameFile` and `getFilesByChatId`. -/
def projInfo (d : FileDoc) : FileInfo where
  id := d._id
  filename := d.filename
  size := d.length
  mimetype := projMime d.metadata.mimetype
  uploadDate := d.uploadDate
  metadata := d.metadata

/-- `validateFile`: size limit first, then the mimetype allow-list. -/
def validateFile (env : Env) (file : UFile) : Except FsError Unit :=
  if file.size > env.maxFileSize then
    .error (.sizeExceeded file.size env.maxFileSize)
  else if env.acceptedTypes.length > 0 && !(env.acceptedTypes.contains file.mimetype) then
    .error (.typeNotAllowed file.mimetype env.acceptedTypes)
  else
    .ok ()

/-- The dedup query `find(\x7b 'metadata.hash': hash, filename: name \x7d)`:
both fields must be present and equal. -/
def dedupPred (hash : List Nat) (name : String) (d : FileDoc) : Bool :=
  d.metadata.hash == some hash && d.filename == name

/-- The metadata document attached by `openUploadStream`: the named base
fields, then the caller metadata spread over them (so a caller key
overrides the base, including `hash`). -/
def uploadMeta (file : UFile) (hash : List Nat) (now : Nat) (metadata : Option Metadata) :
    Metadata :=
  let cm := metadata.getD {}
  mergeMeta
    { originalName := some file.originalname
      mimetype := some file.mimetype
      msize := some file.size
      hash := some hash
      uploadedAt := some now
      chatId := cm.chatId
      userId := cm.userId } cm

/-- The dedup short-circuit projection returned when an existing record
matches (hash, filename). -/
def dupResult (d : FileDoc) : FileUploadResult where
  id := d._id
  filename := d.filename
  size := d.length
  mimetype := projMime d.metadata.mimetype
  uploadDate := d.uploadDate

/-- `uploadFile`. -/
def uploadFile (env : Env) (file : Option UFile) (metadata : Option Metadata)
    (now : Nat) (st : Store) : Except FsError FileUploadResult × Store :=
  match file with
  | none => (.error .noFile, st)
  | some f =>
    match validateFile env f with
    | .error e => (.error e, st)
    | .ok _ =>
      let hash := sha256 f.buffer
      match st.docs.find? (dedupPred hash f.originalname) with
      | some dup => (.ok (dupResult dup), st)
      | none =>
        let doc : FileDoc :=
          { _id := st.nextId
            filename := f.originalname
            length := f.buffer.length
            uploadDate := now
            metadata := uploadMeta f hash now metadata
            content := f.buffer }
        (.ok { id := st.nextId, filename := f.originalname, size := f.size,
               mimetype := f.mimetype, uploadDate := now },
         { docs := st.docs ++ [doc], nextId := st.nextId + 1 })

/-- `getFileInfo`: the whole body is wrapped in `try/catch`, so both a
malformed id and an absent record surface as `NotFoundException`. -/
def getFileInfo (st : Store) (fileId : OidStr) : Except FsError FileInfo :=
  match fileId with
  | none => .error .notFound
  | some oid =>
    match st.docs.find? (fun d => d._id == oid) with
    | none => .error .notFound
    | some f => .ok (projInfo f)

/-- `getFileStream`: resolves metadata via `getFileInfo`, then opens a read
stream over the chunks; every failure is normalized to `NotFoundException`
by the surrounding `try/catch`. -/
def getFileStream (st : Store) (fileId : OidStr) :
    Except FsError (List Nat × FileInfo) :=
  match fileId with
  | none => .error .notFound
  | some oid =>
    match getFileInfo st (some oid) with
    | .error _ => .error .notFound
    | .ok info =>
      match st.docs.find? (fun d => d._id == oid) with
      | none => .error .notFound
      | some d => .ok (d.content, info)

/-- `deleteFile`: a malformed id or a failing bucket delete (the GridFS
driver throws when the id matches no file) is caught and rethrown as
`NotFoundException`. -/
def deleteFile (st : Store) (fileId : OidStr) : Except FsError Unit × Store :=
  match fileId with
  | none => (.error .notFound, st)
  | some oid =>
    if st.docs.any (fun d => d._id == oid) then
      (.ok (), { st with docs := st.docs.filter (fun d => !(d._id == oid)) })
    else
      (.error .notFound, st)

/-- `renameFile`.  Note `new ObjectId(fileId)` is *not* inside a
`try/catch` here, so a malformed id propagates the raw parse error.
`if (payload.filename)` is JavaScript truthiness: an absent or empty
filename leaves the stored filename unchanged. -/
def renameFile (fileId : OidStr) (pfilename : Option String)
    (pmetadata : Option Metadata) (now : Nat) (st : Store) :
    Except FsError FileInfo × Store :=
  match fileId with
  | none => (.error .bsonParse, st)
  | some oid =>
    match st.docs.find? (fun d => d._id == oid) with
    | none => (.error .notFound, st)
    | some ex =>
      let newName :=
        match pfilename with
        | some s => if s = "" then ex.filename else s
        | none => ex.filename
      let newMeta :=
        { (match pmetadata with
           | some p => mergeMeta ex.metadata p
           | none => ex.metadata) with updatedAt := some now }
      let upd := { ex with filename := newName, metadata := newMeta }
      (.ok (projInfo upd),
       { st with
         docs := st.docs.map (fun d => if d._id == oid then upd else d) })

/-- `replaceFile`: validate, resolve, delete the old record (the delete
cannot fail here since the record was just found), then upload the new
content with metadata = old metadata merged with the caller overrides plus
`originalReplacedId` and a fresh `updatedAt`.  As in `renameFile`,
`new ObjectId(fileId)` is outside any `try/catch`. -/
def replaceFile (env : Env) (fileId : OidStr) (newFile : Option UFile)
    (additionalMetadata : Option Metadata) (now : Nat) (st : Store) :
    Except FsError FileUploadResult × Store :=
  match newFile with
  | none => (.error .noFile, st)
  | some f =>
    match validateFile env f with
    | .error e => (.error e, st)
    | .ok _ =>
      match fileId with
      | none => (.error .bsonParse, st)
      | some oid =>
        match st.docs.find? (fun d => d._id == oid) with
        | none => (.error .notFound, st)
        | some existing =>
          let st1 : Store :=
            { st with docs := st.docs.filter (fun d => !(d._id == oid)) }
          let m1 :=
            match additionalMetadata with
            | some am => mergeMeta existing.metadata am
            | none => existing.metadata
          let passed :=
            { m1 with originalReplacedId := some oid, updatedAt := some now }
          uploadFile env (some f) (some passed) now st1

/-- `getFileCount`. -/
def getFileCount (st : Store) : Nat := st.docs.length

inductive SortBy where
  | size
  | createdAt
  | updatedAt
  deriving Repr, DecidableEq

inductive SortOrder where
  | asc
  | desc
  deriving Repr, DecidableEq

/-- The sort-key value of a document: the field selected by
`sortBy` (`length`, `uploadDate` or `metadata.updatedAt`), `none` when the
field is missing. -/
def keyOf : SortBy → FileDoc → Option Nat
  | .size, d => some d.length
  | .createdAt, d => some d.uploadDate
  | .updatedAt, d => d.metadata.updatedAt

/-- BSON ordering of a possibly-missing numeric field in a sort:
missing/null sorts below every number. -/
def ltOpt : Option Nat → Option Nat → Bool
  | none, none => false
  | none, some _ => true
  | some _, none => false
  | some a, some b => a < b

/-- Strictly-before in the composite sort `(sortBy field, _id)` with the
same direction applied to both components (the service always adds `_id`
with the primary direction). -/
def docLT (sb : SortBy) (so : SortOrder) (a b : FileDoc) : Bool :=
  match so with
  | .asc => ltOpt (keyOf sb a) (keyOf sb b) ||
      (keyOf sb a == keyOf sb b && a._id < b._id)
  | .desc => ltOpt (keyOf sb b) (keyOf sb a) ||
      (keyOf sb a == keyOf sb b && b._id < a._id)

/-- The (total) non-strict composite sort order. -/
def docLE (sb : SortBy) (so : SortOrder) (a b : FileDoc) : Bool :=
  docLT sb so a b || (keyOf sb a == keyOf sb b && a._id == b._id)

/-- Insert into a list sorted by `le` (used to model the engine sort). -/
def orderedInsert (le : FileDoc → FileDoc → Bool) (a : FileDoc) :
    List FileDoc → List FileDoc
  | [] => [a]
  | b :: l => if le a b then a :: b :: l else b :: orderedInsert le a l

/-- Sorting by `le` (the engine sorts by a key that is total on the
documents, so any sorted permutation is the engine's output). -/
def isort (le : FileDoc → FileDoc → Bool) : List FileDoc → List FileDoc
  | [] => []
  | a :: l => orderedInsert le a (isort le l)

/-- `.sort(\x7b ...sort, _id: dir \x7d)` over the matching documents. -/
def sortDocs (sb : SortBy) (so : SortOrder) (l : List FileDoc) : List FileDoc :=
  isort (docLE sb so) l

/-- Mongo `limit`: `limit(0)` means no limit. -/
def mtake (limit : Nat) (l : List FileDoc) : List FileDoc :=
  if limit == 0 then l else l.take limit

/-- The value of the `$or` key of the query filter.  The text-search
disjunction and the cursor-continuation disjunction are *both* stored
under the single `$or` key of the same filter object, so building the
cursor continuation overwrites a previously installed text search. -/
inductive OrClause where
  /-- `[\x7bfilename: re\x7d, \x7b'metadata.originalName': re\x7d, \x7b'metadata.description': re\x7d]`. -/
  | textSearch (needle : String)
  /-- `[\x7bfield op v\x7d, \x7bfield: v, _id: \x7b[op]: lastId\x7d\x7d]` where `op` is `$gt`
  for ascending and `$lt` for descending. -/
  | cursorCont (sb : SortBy) (so : SortOrder) (v : Nat) (lastId : Nat)
  deriving Repr, DecidableEq

/-- The query filter object. -/
structure MFilter where
  orClause : Option OrClause := none
  mimetype : Option String := none
  deriving Repr, DecidableEq

/-- The strict comparison selected by the direction (`$gt` ascending,
`$lt` descending). -/
def cmpDir (so : SortOrder) (x v : Nat) : Bool :=
  match so with
  | .asc => v < x
  | .desc => x < v

/-- Does a document match the `$or` clause?  Comparison operators and
(non-null) equality never match a missing field. -/
def matchesOr (oc : OrClause) (d : FileDoc) : Bool :=
  match oc with
  | .textSearch q =>
    containsCI d.filename q ||
    (match d.metadata.originalName with
     | some s => containsCI s q
     | none => false) ||
    (match d.metadata.description with
     | some s => containsCI s q
     | none => false)
  | .cursorCont sb so v lastId =>
    match keyOf sb d with
    | none => false
    | some x => cmpDir so x v || (x == v && cmpDir so d._id lastId)

/-- Does a document match the whole filter? -/
def matchesFilter (f : MFilter) (d : FileDoc) : Bool :=
  (match f.orClause with
   | some oc => matchesOr oc d
   | none => true) &&
  (match f.mimetype with
   | some m => d.metadata.mimetype == some m
   | none => true)

/-- The comparison value re-resolved from the cursor document: the sort
field itself, except that for `updatedAt` a missing `metadata.updatedAt`
falls back to `uploadDate`
(`lastDoc.metadata?.updatedAt || lastDoc.uploadDate`). -/
def contValue : SortBy → FileDoc → Nat
  | .size, d => d.length
  | .createdAt, d => d.uploadDate
  | .updatedAt, d => d.metadata.updatedAt.getD d.uploadDate

/-- Parameters of `listFilesAdvanced` after the controller has parsed
them.  `cursor = some c` means a non-empty cursor string was supplied
(`if (cursor)` is truthy), where `c : OidStr` tells whether it parses. -/
structure ListParams where
  q : Option String := none
  mimetype : Option String := none
  page : Option Nat := none
  limit : Option Nat := none
  sortBy : Option SortBy := none
  sortOrder : Option SortOrder := none
  cursor : Option OidStr := none
  deriving Repr, DecidableEq

/-- The two result shapes of `listFilesAdvanced`. -/
inductive ListResult where
  | cursorRes (items : List FileInfo) (nextCursor : Option Nat)
  | pageRes (items : List FileInfo) (page : Nat) (total : Nat)
  deriving Repr, DecidableEq

/-- The base filter built from `q` and `mimetype`. -/
def baseFilter (p : ListParams) : MFilter where
  orClause :=
    match p.q with
    | some q => if (trimStr q).length > 0 then some (.textSearch (trimStr q)) else none
    | none => none
  mimetype :=
    match p.mimetype with
    | some m => if (trimStr m).length > 0 then some (trimStr m) else none
    | none => none

/-- `listFilesAdvanced`. -/
def listFilesAdvanced (st : Store) (p : ListParams) : ListResult :=
  let limit := p.limit.getD 50
  let sb := p.sortBy.getD .createdAt
  let so := p.sortOrder.getD .desc
  let f0 := baseFilter p
  match p.cursor with
  | some c =>
    let orC : Option OrClause :=
      match c with
      | none => f0.orClause
      | some cid =>
        match st.docs.find? (fun d => d._id == cid) with
        | none => f0.orClause
        | some lastDoc =>
          some (.cursorCont sb so (contValue sb lastDoc) lastDoc._id)
    let f := { f0 with orClause := orC }
    let docs := mtake limit (sortDocs sb so (st.docs.filter (matchesFilter f)))
    let items := docs.map projInfo
    let next := if docs.length == limit then docs.getLast?.map (fun d => d._id) else none
    .cursorRes items next
  | none =>
    let pageNum :=
      match p.page with
      | some pg => if pg > 0 then pg else 1
      | none => 1
    let skip := (pageNum - 1) * limit
    let matching := st.docs.filter (matchesFilter f0)
    let docs := mtake limit ((sortDocs sb so matching).drop skip)
    .pageRes (docs.map projInfo) pageNum matching.length

/-- `listFiles` (simple listing, upload date descending). -/
def listFiles (st : Store) (limit skip : Nat) : List FileInfo :=
  (mtake limit ((sortDocs .createdAt .desc st.docs).drop skip)).map projInfo

/-- `getFilesByChatId`. -/
def getFilesByChatId (st : Store) (chatId : String) : List FileInfo :=
  (sortDocs .createdAt .desc
    (st.docs.filter (fun d => d.metadata.chatId == some chatId))).map projInfo

/-- Parameters of an unfiltered cursor-mode call (no text query, no
mimetype filter). -/
def cursorParams (sb : SortBy) (so : SortOrder) (L : Nat) (c : OidStr) : ListParams :=
  { limit := some L, sortBy := some sb, sortOrder := some so, cursor := some c }

/-- Parameters of an unfiltered page-mode call. -/
def pageParams (sb : SortBy) (so : SortOrder) (L : Nat) (p : Nat) : ListParams :=
  { page := some p, limit := some L, sortBy := some sb, sortOrder := some so }

/-- One cursor-mode call: the returned items and the `nextCursor`. -/
def cursorStep (st : Store) (sb : SortBy) (so : SortOrder) (L : Nat) (c : OidStr) :
    List FileInfo × Option Nat :=
  match listFilesAdvanced st (cursorParams sb so L c) with
  | .cursorRes items next => (items, next)
  | .pageRes items _ _ => (items, none)

/-- Walking cursor mode to completion: start from an absent/invalid cursor
(the service treats it as "start from the beginning") and follow each
`nextCursor` until none is emitted.  `fuel` bounds the number of calls. -/
def cursorWalkAux (st : Store) (sb : SortBy) (so : SortOrder) (L : Nat) :
    Nat → OidStr → List Nat
  | 0, _ => []
  | fuel + 1, c =>
    let s := cursorStep st sb so L c
    s.1.map (fun i => i.id) ++
      (match s.2 with
       | some nid => cursorWalkAux st sb so L fuel (some nid)
       | none => [])

/-- The ids enumerated by walking cursor mode to completion. -/
def cursorWalk (st : Store) (sb : SortBy) (so : SortOrder) (L : Nat) : List Nat :=
  cursorWalkAux st sb so L (st.docs.length + 1) none

/-- The items of page `p` of an unfiltered page-mode call. -/
def pageItems (st : Store) (sb : SortBy) (so : SortOrder) (L : Nat) (p : Nat) :
    List FileInfo :=
  match listFilesAdvanced st (pageParams sb so L p) with
  | .pageRes items _ _ => items
  | .cursorRes items _ => items

/-- Walking page mode to completion: pages 1, 2, … until an empty page. -/
def pageWalkAux (st : Store) (sb : SortBy) (so : SortOrder) (L : Nat) :
    Nat → Nat → List Nat
  | 0, _ => []
  | fuel + 1, p =>
    let items := pageItems st sb so L p
    if items.isEmpty then []
    else items.map (fun i => i.id) ++ pageWalkAux st sb so L fuel (p + 1)

/-- The ids enumerated by walking page mode to completion. -/
def pageWalk (st : Store) (sb : SortBy) (so : SortOrder) (L : Nat) : List Nat :=
  pageWalkAux st sb so L (st.docs.length + 1) 1

/-- The `$or` clause a cursor-mode call installs (overwriting any text
search): absent when the cursor string does not parse or resolves to no
document. -/
def cursorOr (st : Store) (sb : SortBy) (so : SortOrder) (c : OidStr) :
    Option OrClause :=
  match c with
  | none => none
  | some cid =>
    match st.docs.find? (fun d => d._id == cid) with
    | none => none
    | some lastDoc => some (.cursorCont sb so (contValue sb lastDoc) lastDoc._id)

/-- The sorted, filtered document list an unfiltered cursor-mode call
ranges over (before the limit is applied). -/
def cursorBase (st : Store) (sb : SortBy) (so : SortOrder) (c : OidStr) :
    List FileDoc :=
  sortDocs sb so
    (st.docs.filter (matchesFilter { orClause := cursorOr st sb so c, mimetype := none }))

/-- The mimetype reported in a projection is well-formed: never empty, and
the default type whenever the stored `metadata.mimetype` is absent (or the
empty string, which is falsy). -/
def mimeOk (stored : Option String) (out : String) : Prop :=
  out ≠ "" ∧ ((stored = none ∨ stored = some "") → out = "application/octet-stream")

/-- Environment used by the concrete test instances: a 100-byte limit and
no mimetype restriction. -/
def tEnv : Env := { maxFileSize := 100, acceptedTypes := [] }

/-- A small file used by the concrete test instances. -/
def tFile : UFile := { originalname := "a.txt", mimetype := "text/plain", size := 1, buffer := [7] }

/-- Caller metadata whose `hash` key overrides the computed digest. -/
def tMetaHash : Metadata := { hash := some [9] }

/-- Replace scenario: the record being replaced. -/
def c2A : FileDoc :=
  { _id := 0, filename := "f", length := 1, uploadDate := 1, metadata := { hash := some [5] } }

/-- Replace scenario: another record that already holds the replacement
content under the replacement filename. -/
def c2B : FileDoc :=
  { _id := 1, filename := "g", length := 3, uploadDate := 2, metadata := { hash := some [1, 2, 3] } }

/-- Replace scenario: the new content uploaded over `c2A`. -/
def c2f : UFile := { originalname := "g", mimetype := "t", size := 3, buffer := [1, 2, 3] }

/-- Search scenario: a record whose fields do not contain the query. -/
def c3A : FileDoc := { _id := 1, filename := "zzz", length := 1, uploadDate := 10, metadata := {} }

/-- Search scenario: a record whose filename contains the query. -/
def c3B : FileDoc :=
  { _id := 2, filename := "report-alpha", length := 1, uploadDate := 20, metadata := {} }

/-- Search scenario store. -/
def c3st : Store := { docs := [c3A, c3B], nextId := 3 }

/-- Search scenario parameters: text query plus a cursor resolving to `c3B`. -/
def c3p : ListParams :=
  { q := some "alpha", limit := some 50, sortBy := some .createdAt,
    sortOrder := some .desc, cursor := some (some 2) }

/-- Walk scenario: a record carrying `metadata.updatedAt`. -/
def c5A : FileDoc :=
  { _id := 0, filename := "a", length := 1, uploadDate := 1, metadata := { updatedAt := some 5 } }

/-- Walk scenario: a record with no `metadata.updatedAt`. -/
def c5B : FileDoc := { _id := 1, filename := "b", length := 2, uploadDate := 2, metadata := {} }

/-- Walk scenario store. -/
def c5st : Store := { docs := [c5A, c5B], nextId := 2 }

/-- Rename scenario: a record whose content hash is on record. -/
def c6doc : FileDoc :=
  { _id := 0, filename := "a", length := 1, uploadDate := 1, metadata := { hash := some [7] } }

/-- A record with no declared mimetype. -/
def c9doc : FileDoc := { _id := 0, filename := "n", length := 1, uploadDate := 1, metadata := {} }

/-- Cursor-fallback scenario: the cursor record, with no `metadata.updatedAt`. -/
def c10A : FileDoc := { _id := 0, filename := "a", length := 1, uploadDate := 10, metadata := {} }

/-- Cursor-fallback scenario: an older record. -/
def c10B : FileDoc := { _id := 1, filename := "b", length := 1, uploadDate := 4, metadata := { updatedAt := some 3 } }

/-- Cursor-fallback scenario store. -/
def c10st : Store := { docs := [c10A, c10B], nextId := 2 }

/-- Cursor-fallback scenario parameters: update-time sort, cursor at `c10A`. -/
def c10p : ListParams :=
  { limit := some 50, sortBy := some .updatedAt, sortOrder := some .desc,
    cursor := some (some 0) }

theorem orderedInsert_perm (le : FileDoc → FileDoc → Bool) (a : FileDoc) (l : List FileDoc) :
    (orderedInsert le a l).Perm (a :: l) := by
  induction l with
  | nil => simp [orderedInsert]
  | cons b t ih =>
    by_cases h : le a b
    · simp [orderedInsert, h]
    · simp only [orderedInsert, h, if_neg]
      exact (List.Perm.cons b ih).trans (List.Perm.swap a b t)

theorem isort_perm (le : FileDoc → FileDoc → Bool) (l : List FileDoc) :
    (isort le l).Perm l := by
  induction l with
  | nil => simp [isort]
  | cons a t ih =>
    exact (orderedInsert_perm le a (isort le t)).trans (List.Perm.cons a ih)

theorem sortDocs_perm (sb : SortBy) (so : SortOrder) (l : List FileDoc) :
    (sortDocs sb so l).Perm l := isort_perm _ l

theorem mem_sortDocs {sb : SortBy} {so : SortOrder} {l : List FileDoc} {d : FileDoc} :
    d ∈ sortDocs sb so l ↔ d ∈ l := (sortDocs_perm sb so l).mem_iff

theorem mem_of_mem_mtake {L : Nat} {l : List FileDoc} {d : FileDoc}
    (h : d ∈ mtake L l) : d ∈ l := by
  unfold mtake at h
  split at h
  · exact h
  · exact List.mem_of_mem_take h

theorem mimeOk_projMime (m : Option String) : mimeOk m (projMime m) := by
  constructor
  · match m with
    | none => simp [projMime]
    | some s =>
      by_cases h : s = "" <;> simp [projMime, h]
  · rintro (rfl | rfl) <;> simp [projMime]

/-- C7: `uploadFile` validates before any write, size first, then the
mimetype allow-list; in either rejection case the error carries the data
of the message (for the size case, the configured limit) and the store is
unchanged — no chunk record has been written. -/
theorem c7_validation_order_no_write (env : Env) (st : Store) (f : UFile)
    (m : Option Metadata) (now : Nat) :
    (f.size > env.maxFileSize →
      uploadFile env (some f) m now st =
        (.error (.sizeExceeded f.size env.maxFileSize), st)) ∧
    (f.size ≤ env.maxFileSize → env.acceptedTypes ≠ [] →
      f.mimetype ∉ env.acceptedTypes →
      uploadFile env (some f) m now st =
        (.error (.typeNotAllowed f.mimetype env.acceptedTypes), st)) := by
  constructor
  · intro h
    simp [uploadFile, validateFile, h]
  · intro h1 h2 h3
    have hng : ¬ f.size > env.maxFileSize := by omega
    have hlen : env.acceptedTypes.length > 0 := List.length_pos.mpr h2
    simp [uploadFile, validateFile, hng, hlen, h3]

theorem c7_validation_order_no_write_witness :
    (uploadFile { maxFileSize := 2, acceptedTypes := [] } (some { originalname := "a", mimetype := "t", size := 5, buffer := [1] }) none 0 { docs := [], nextId := 0 } =
      (.error (.sizeExceeded 5 2), { docs := [], nextId := 0 })) ∧
    (uploadFile { maxFileSize := 10, acceptedTypes := ["x"] } (some { originalname := "a", mimetype := "t", size := 5, buffer := [1] }) none 0 { docs := [], nextId := 0 } =
      (.error (.typeNotAllowed "t" ["x"]), { docs := [], nextId := 0 })) :=
  ⟨(c7_validation_order_no_write { maxFileSize := 2, acceptedTypes := [] } { docs := [], nextId := 0 } { originalname := "a", mimetype := "t", size := 5, buffer := [1] } none 0).1 (by decide),
   (c7_validation_order_no_write { maxFileSize := 10, acceptedTypes := ["x"] } { docs := [], nextId := 0 } { originalname := "a", mimetype := "t", size := 5, buffer := [1] } none 0).2 (by decide) (by decide) (by decide)⟩

/-- C4 counterexample: `renameFile` on an id string that does not parse
surfaces the raw `ObjectId` parse error, not `NotFound` — the claim that
every id-taking operation normalizes a malformed id to `NotFound` is
false for `renameFile` (and `replaceFile`). -/
theorem c4_counterexample :
    renameFile none none none 0 { docs := [], nextId := 0 } =
      (.error .bsonParse, { docs := [], nextId := 0 }) ∧
    FsError.bsonParse ≠ FsError.notFound :=
  ⟨rfl, by decide⟩

/-- C4 amended: `getFileInfo`, `getFileStream` and `deleteFile` normalize
a malformed id to `NotFound`, but `renameFile` and `replaceFile` let the
raw parse error escape (for `replaceFile`, once validation has passed);
in every case the store is unchanged. -/
theorem c4_amended (st : Store) (env : Env) (f : UFile) (pf : Option String)
    (pm am : Option Metadata) (now : Nat)
    (hv : validateFile env f = .ok ()) :
    getFileInfo st none = .error .notFound ∧
    getFileStream st none = .error .notFound ∧
    deleteFile st none = (.error .notFound, st) ∧
    renameFile none pf pm now st = (.error .bsonParse, st) ∧
    replaceFile env none (some f) am now st = (.error .bsonParse, st) := by
  refine ⟨rfl, rfl, rfl, rfl, ?_⟩
  simp [replaceFile, hv]

theorem c4_amended_witness :
    getFileInfo { docs := [], nextId := 0 } none = .error .notFound ∧
    getFileStream { docs := [], nextId := 0 } none = .error .notFound ∧
    deleteFile { docs := [], nextId := 0 } none = (.error .notFound, { docs := [], nextId := 0 }) ∧
    renameFile none none none 3 { docs := [], nextId := 0 } = (.error .bsonParse, { docs := [], nextId := 0 }) ∧
    replaceFile tEnv none (some tFile) none 3 { docs := [], nextId := 0 } = (.error .bsonParse, { docs := [], nextId := 0 }) :=
  c4_amended { docs := [], nextId := 0 } tEnv tFile none none none 3 rfl

/-- C6 counterexample: a rename whose metadata patch carries a `hash` key
overwrites the stored content hash (the patch wins on key conflicts), so
"rename never changes the content hash" is false as stated. -/
theorem c6_counterexample :
    ((renameFile (some 0) none (some { hash := some [9] }) 5
        { docs := [c6doc], nextId := 1 }).2.docs.map (fun d => d.metadata.hash)) =
      [some [9]] ∧
    c6doc.metadata.hash = some [7] := by decide

/-- C6 amended: over a store with unique ids, `renameFile` never changes
any record's id or size, always stamps `metadata.updatedAt` with the fresh
timestamp on the renamed record, updates the stored filename exactly when
a non-empty new name was supplied, and preserves the stored content hash
provided the metadata patch does not itself carry a `hash` key. -/
theorem c6_amended (st st2 : Store) (oid : Nat) (pf : Option String)
    (pm : Option Metadata) (now : Nat) (info : FileInfo)
    (hnodup : (st.docs.map (fun d => d._id)).Nodup)
    (h : renameFile (some oid) pf pm now st = (.ok info, st2))
    (hhash : ∀ p, pm = some p → p.hash = none) :
    st2.docs.map (fun d => d._id) = st.docs.map (fun d => d._id) ∧
    st2.docs.map (fun d => d.length) = st.docs.map (fun d => d.length) ∧
    st2.docs.map (fun d => d.metadata.hash) = st.docs.map (fun d => d.metadata.hash) ∧
    info.id = oid ∧
    (∀ d2 ∈ st2.docs, d2._id = oid → d2.metadata.updatedAt = some now) ∧
    ((pf = none ∨ pf = some "") →
      st2.docs.map (fun d => d.filename) = st.docs.map (fun d => d.filename)) ∧
    (∀ s, pf = some s → s ≠ "" →
      ∀ d2 ∈ st2.docs, d2._id = oid → d2.filename = s) := by
  simp only [renameFile] at h
  cases hfind : st.docs.find? (fun d => d._id == oid) with
  | none =>
    rw [hfind] at h
    exact absurd (congrArg Prod.fst h) (by simp)
  | some ex =>
    rw [hfind] at h
    simp only [Prod.mk.injEq, Except.ok.injEq] at h
    obtain ⟨hinfo, hst2⟩ := h
    have hexmem : ex ∈ st.docs := List.mem_of_find?_eq_some hfind
    have hexid : ex._id = oid := by
      have := List.find?_some hfind
      simpa using this
    have hinj := List.inj_on_of_nodup_map hnodup
    set newName :=
      (match pf with
       | some s => if s = "" then ex.filename else s
       | none => ex.filename) with hnn
    set newMeta :=
      ({ (match pm with
          | some p => mergeMeta ex.metadata p
          | none => ex.metadata) with updatedAt := some now } : Metadata) with hnm
    have hupd_of_eq : ∀ d ∈ st.docs, (d._id == oid) = true → d = ex := by
      intro d hd hdo
      have hdid : d._id = oid := by simpa using hdo
      exact hinj hd hexmem (by rw [hdid, hexid])
    have hmhash : newMeta.hash = ex.metadata.hash := by
      rw [hnm]
      cases hpm : pm with
      | none => rfl
      | some p =>
        have hp := hhash p hpm
        simp [mergeMeta, hp]
    have hmupd : newMeta.updatedAt = some now := by rw [hnm]
    refine ⟨?_, ?_, ?_, ?_, ?_, ?_, ?_⟩
    · rw [← hst2, List.map_map]
      refine List.map_congr_left ?_
      intro d hd
      by_cases hdo : (d._id == oid) = true
      · have hdex : d = ex := hupd_of_eq d hd hdo
        simp only [Function.comp_apply]
        rw [if_pos hdo, hdex]
      · simp only [Function.comp_apply]
        rw [if_neg hdo]
    · rw [← hst2, List.map_map]
      refine List.map_congr_left ?_
      intro d hd
      by_cases hdo : (d._id == oid) = true
      · have hdex : d = ex := hupd_of_eq d hd hdo
        simp only [Function.comp_apply]
        rw [if_pos hdo, hdex]
      · simp only [Function.comp_apply]
        rw [if_neg hdo]
    · rw [← hst2, List.map_map]
      refine List.map_congr_left ?_
      intro d hd
      by_cases hdo : (d._id == oid) = true
      · have hdex : d = ex := hupd_of_eq d hd hdo
        simp only [Function.comp_apply]
        rw [if_pos hdo, hdex]
        exact hmhash
      · simp only [Function.comp_apply]
        rw [if_neg hdo]
    · rw [← hinfo]
      simpa [projInfo] using hexid
    · intro d2 hd2 hid2
      rw [← hst2] at hd2
      obtain ⟨d, hdmem, heq⟩ := List.mem_map.mp hd2
      by_cases hdo : (d._id == oid) = true
      · rw [if_pos hdo] at heq
        rw [← heq]
      · rw [if_neg hdo] at heq
        subst heq
        exact absurd (show (d._id == oid) = true by simpa using hid2) hdo
    · intro hpf
      rw [← hst2, List.map_map]
      refine List.map_congr_left ?_
      intro d hd
      have hname : newName = ex.filename := by
        rcases hpf with rfl | rfl <;> simp [hnn]
      by_cases hdo : (d._id == oid) = true
      · have hdex : d = ex := hupd_of_eq d hd hdo
        simp only [Function.comp_apply]
        rw [if_pos hdo, hdex]
        exact hname
      · simp only [Function.comp_apply]
        rw [if_neg hdo]
    · intro s hpf hs d2 hd2 hid2
      rw [← hst2] at hd2
      obtain ⟨d, hdmem, heq⟩ := List.mem_map.mp hd2
      by_cases hdo : (d._id == oid) = true
      · rw [if_pos hdo] at heq
        rw [← heq]
        show newName = s
        subst hpf
        simp [hnn, hs]
      · rw [if_neg hdo] at heq
        subst heq
        exact absurd (show (d._id == oid) = true by simpa using hid2) hdo

theorem c6_amended_witness :
    renameFile (some 0) (some "b") (some { description := some "x" }) 7 { docs := [c6doc], nextId := 1 } =
      (.ok (projInfo { _id := 0, filename := "b", length := 1, uploadDate := 1, metadata := { hash := some [7], description := some "x", updatedAt := some 7 } }),
       { docs := [{ _id := 0, filename := "b", length := 1, uploadDate := 1, metadata := { hash := some [7], description := some "x", updatedAt := some 7 } }], nextId := 1 }) ∧
    ({ docs := [{ _id := 0, filename := "b", length := 1, uploadDate := 1, metadata := { hash := some [7], description := some "x", updatedAt := some 7 } }], nextId := 1 } : Store).docs.map (fun d => d._id) =
      ({ docs := [c6doc], nextId := 1 } : Store).docs.map (fun d => d._id) ∧
    ({ docs := [{ _id := 0, filename := "b", length := 1, uploadDate := 1, metadata := { hash := some [7], description := some "x", updatedAt := some 7 } }], nextId := 1 } : Store).docs.map (fun d => d.metadata.hash) =
      ({ docs := [c6doc], nextId := 1 } : Store).docs.map (fun d => d.metadata.hash) := by
  have hr : renameFile (some 0) (some "b") (some { description := some "x" }) 7 { docs := [c6doc], nextId := 1 } =
      (.ok (projInfo { _id := 0, filename := "b", length := 1, uploadDate := 1, metadata := { hash := some [7], description := some "x", updatedAt := some 7 } }),
       { docs := [{ _id := 0, filename := "b", length := 1, uploadDate := 1, metadata := { hash := some [7], description := some "x", updatedAt := some 7 } }], nextId := 1 }) := by
    rfl
  have h := c6_amended { docs := [c6doc], nextId := 1 }
      { docs := [{ _id := 0, filename := "b", length := 1, uploadDate := 1, metadata := { hash := some [7], description := some "x", updatedAt := some 7 } }], nextId := 1 }
      0 (some "b") (some { description := some "x" }) 7
      (projInfo { _id := 0, filename := "b", length := 1, uploadDate := 1, metadata := { hash := some [7], description := some "x", updatedAt := some 7 } })
      (by decide) hr (by intro p hp; cases hp; rfl)
  exact ⟨hr, h.1, h.2.2.1⟩

theorem c8_core (b : List FileDoc) (L : Nat) (hpos : 0 < L) :
    ((mtake L b).map projInfo).length ≤ L ∧
    (((mtake L b).map projInfo).length = L →
      (if ((mtake L b).length == L) = true then (mtake L b).getLast?.map (fun d => d._id) else none) =
        ((mtake L b).map projInfo).getLast?.map (fun i => i.id) ∧
      (if ((mtake L b).length == L) = true then (mtake L b).getLast?.map (fun d => d._id) else none) ≠ none) ∧
    (((mtake L b).map projInfo).length ≠ L →
      (if ((mtake L b).length == L) = true then (mtake L b).getLast?.map (fun d => d._id) else none) = none) := by
  have hLne : L ≠ 0 := Nat.pos_iff_ne_zero.mp hpos
  have hml : (mtake L b).length ≤ L := by
    simp only [mtake]
    have : (L == 0) = false := by simpa using hLne
    rw [this]
    simp only [Bool.false_eq_true, if_false, List.length_take]
    omega
  refine ⟨?_, ?_, ?_⟩
  · rw [List.length_map]
    exact hml
  · intro hlen
    rw [List.length_map] at hlen
    have hbeq : ((mtake L b).length == L) = true := by simpa using hlen
    rw [hbeq, if_pos rfl]
    constructor
    · rw [List.getLast?_map, Option.map_map]
      rfl
    · have hne : mtake L b ≠ [] := by
        intro hnil
        rw [hnil] at hlen
        simp at hlen
        omega
      obtain ⟨g, hg⟩ := Option.isSome_iff_exists.mp (List.getLast?_isSome.mpr hne)
      simp [hg]
  · intro hlen
    rw [List.length_map] at hlen
    have hbeq : ((mtake L b).length == L) = false := by simpa using hlen
    rw [hbeq]
    simp

/-- C8: in cursor mode with a positive page-size limit, `nextCursor` is
emitted and equals the id of the last returned item exactly when the
number of returned items equals the limit; with fewer items it is absent
(the result count never exceeds the limit). -/
theorem c8_cursor_nextCursor (st : Store) (p : ListParams) (c : OidStr) (L : Nat)
    (hc : p.cursor = some c) (hL : p.limit = some L) (hpos : 0 < L) :
    ∃ items next, listFilesAdvanced st p = .cursorRes items next ∧
      items.length ≤ L ∧
      (items.length = L → next = items.getLast?.map (fun i => i.id) ∧ next ≠ none) ∧
      (items.length ≠ L → next = none) := by
  simp only [listFilesAdvanced, hc, hL, Option.getD_some]
  refine ⟨_, _, rfl, ?_, ?_, ?_⟩
  · exact (c8_core _ L hpos).1
  · intro hlen
    exact ⟨((c8_core _ L hpos).2.1 hlen).1, ((c8_core _ L hpos).2.1 hlen).2⟩
  · intro hlen
    exact (c8_core _ L hpos).2.2 hlen

theorem c8_cursor_nextCursor_witness :
    ∃ items next,
      listFilesAdvanced { docs := [c9doc], nextId := 1 }
        (cursorParams .size .asc 1 none) = .cursorRes items next ∧
      items.length ≤ 1 ∧
      (items.length = 1 → next = items.getLast?.map (fun i => i.id) ∧ next ≠ none) ∧
      (items.length ≠ 1 → next = none) :=
  c8_cursor_nextCursor { docs := [c9doc], nextId := 1 }
    (cursorParams .size .asc 1 none) none 1 rfl rfl (by decide)

/-- C10: in cursor mode sorting by last-update time, when the cursor
document has no `metadata.updatedAt`, its `uploadDate` is used in its
place as the strictly-before / strictly-after comparison value of the
continuation filter (tie-broken on `_id`). -/
theorem c10_updatedAt_cursor_fallback (st : Store) (p : ListParams) (cid : Nat)
    (lastDoc : FileDoc) (so : SortOrder) (L : Nat)
    (hc : p.cursor = some (some cid)) (hsb : p.sortBy = some .updatedAt)
    (hso : p.sortOrder = some so) (hL : p.limit = some L)
    (hfind : st.docs.find? (fun d => d._id == cid) = some lastDoc)
    (hupd : lastDoc.metadata.updatedAt = none) :
    listFilesAdvanced st p =
      (let ds := mtake L (sortDocs .updatedAt so (st.docs.filter (matchesFilter
          { orClause := some (.cursorCont .updatedAt so lastDoc.uploadDate lastDoc._id),
            mimetype := (baseFilter p).mimetype })));
       .cursorRes (ds.map projInfo)
         (if (ds.length == L) = true then ds.getLast?.map (fun d => d._id) else none)) := by
  simp only [listFilesAdvanced, hc, hsb, hso, hL, hfind, Option.getD_some, contValue, hupd,
    Option.getD_none]

theorem c10_updatedAt_cursor_fallback_witness :
    listFilesAdvanced c10st c10p =
      (let ds := mtake 50 (sortDocs .updatedAt .desc (c10st.docs.filter (matchesFilter
          { orClause := some (.cursorCont .updatedAt .desc c10A.uploadDate c10A._id),
            mimetype := (baseFilter c10p).mimetype })));
       .cursorRes (ds.map projInfo)
         (if (ds.length == 50) = true then ds.getLast?.map (fun d => d._id) else none)) :=
  c10_updatedAt_cursor_fallback c10st c10p 0 c10A .desc 50 rfl rfl rfl rfl rfl rfl

theorem mem_of_listed_drop {sb : SortBy} {so : SortOrder} {l : List FileDoc}
    {p : FileDoc → Bool} {L k : Nat} {d : FileDoc}
    (h : d ∈ mtake L ((sortDocs sb so (l.filter p)).drop k)) : d ∈ l :=
  List.mem_of_mem_filter (mem_sortDocs.mp (List.mem_of_mem_drop (mem_of_mem_mtake h)))

theorem mem_of_listed {sb : SortBy} {so : SortOrder} {l : List FileDoc}
    {p : FileDoc → Bool} {L : Nat} {d : FileDoc}
    (h : d ∈ mtake L (sortDocs sb so (l.filter p))) : d ∈ l :=
  List.mem_of_mem_filter (mem_sortDocs.mp (mem_of_mem_mtake h))

/-- C9: every `FileInfo`/`FileUploadResult` projection — point lookup,
both listing modes, rename, by-chat lookup, and the dedup short-circuit of
upload — reports a mimetype that is never empty/absent, and reports
`application/octet-stream` exactly where the stored record has no (or an
empty, falsy) `metadata.mimetype`. -/
theorem c9_mimetype_defaulted :
    (∀ st fid info, getFileInfo st fid = .ok info →
      ∃ d, d ∈ st.docs ∧ d._id = info.id ∧ mimeOk d.metadata.mimetype info.mimetype) ∧
    (∀ st p items next, listFilesAdvanced st p = .cursorRes items next →
      ∀ i ∈ items, ∃ d, d ∈ st.docs ∧ d._id = i.id ∧ mimeOk d.metadata.mimetype i.mimetype) ∧
    (∀ st p items pg tot, listFilesAdvanced st p = .pageRes items pg tot →
      ∀ i ∈ items, ∃ d, d ∈ st.docs ∧ d._id = i.id ∧ mimeOk d.metadata.mimetype i.mimetype) ∧
    (∀ fid pf pm now st info st2, renameFile fid pf pm now st = (.ok info, st2) →
      ∃ d, d ∈ st2.docs ∧ d._id = info.id ∧ mimeOk d.metadata.mimetype info.mimetype) ∧
    (∀ st cid i, i ∈ getFilesByChatId st cid →
      ∃ d, d ∈ st.docs ∧ d._id = i.id ∧ mimeOk d.metadata.mimetype i.mimetype) ∧
    (∀ env f m now st r, uploadFile env (some f) m now st = (.ok r, st) →
      ∃ d, d ∈ st.docs ∧ d._id = r.id ∧ mimeOk d.metadata.mimetype r.mimetype) := by
  refine ⟨?_, ?_, ?_, ?_, ?_, ?_⟩
  · intro st fid info h
    match fid with
    | none => exact absurd h (by simp [getFileInfo])
    | some oid =>
      simp only [getFileInfo] at h
      cases hfind : st.docs.find? (fun d => d._id == oid) with
      | none =>
        rw [hfind] at h
        exact absurd h (by simp)
      | some f =>
        rw [hfind] at h
        simp only [Except.ok.injEq] at h
        refine ⟨f, List.mem_of_find?_eq_some hfind, ?_, ?_⟩
        · rw [← h]; rfl
        · rw [← h]; exact mimeOk_projMime _
  · intro st p items next h
    obtain ⟨q, mt, pg, lim, sb, so, cur⟩ := p
    cases cur with
    | none => exact absurd h (by simp [listFilesAdvanced])
    | some c =>
      simp only [listFilesAdvanced, ListResult.cursorRes.injEq] at h
      obtain ⟨hitems, hnext⟩ := h
      intro i hi
      rw [← hitems] at hi
      obtain ⟨d, hd, hdi⟩ := List.mem_map.mp hi
      refine ⟨d, mem_of_listed hd, ?_, ?_⟩
      · rw [← hdi]; rfl
      · rw [← hdi]; exact mimeOk_projMime _
  · intro st p items pg2 tot h
    obtain ⟨q, mt, pg, lim, sb, so, cur⟩ := p
    cases cur with
    | some c => exact absurd h (by simp [listFilesAdvanced])
    | none =>
      simp only [listFilesAdvanced, ListResult.pageRes.injEq] at h
      obtain ⟨hitems, hpg, htot⟩ := h
      intro i hi
      rw [← hitems] at hi
      obtain ⟨d, hd, hdi⟩ := List.mem_map.mp hi
      refine ⟨d, mem_of_listed_drop hd, ?_, ?_⟩
      · rw [← hdi]; rfl
      · rw [← hdi]; exact mimeOk_projMime _
  · intro fid pf pm now st info st2 h
    match fid with
    | none => exact absurd (congrArg Prod.fst h) (by simp [renameFile])
    | some oid =>
      simp only [renameFile] at h
      cases hfind : st.docs.find? (fun d => d._id == oid) with
      | none =>
        rw [hfind] at h
        exact absurd (congrArg Prod.fst h) (by simp)
      | some ex =>
        rw [hfind] at h
        simp only [Prod.mk.injEq, Except.ok.injEq] at h
        obtain ⟨hinfo, hst2⟩ := h
        have hexid := List.find?_some hfind
        subst hst2
        subst hinfo
        refine ⟨_, List.mem_map.mpr ⟨ex, List.mem_of_find?_eq_some hfind, rfl⟩, ?_, ?_⟩
        · rw [if_pos hexid]
          rfl
        · rw [if_pos hexid]
          exact mimeOk_projMime _
  · intro st cid i hi
    simp only [getFilesByChatId] at hi
    obtain ⟨d, hd, hdi⟩ := List.mem_map.mp hi
    refine ⟨d, List.mem_of_mem_filter (mem_sortDocs.mp hd), ?_, ?_⟩
    · rw [← hdi]; rfl
    · rw [← hdi]; exact mimeOk_projMime _
  · intro env f m now st r h
    simp only [uploadFile] at h
    cases hv : validateFile env f with
    | error e =>
      rw [hv] at h
      exact absurd (congrArg Prod.fst h) (by simp)
    | ok u =>
      rw [hv] at h
      cases hfind : st.docs.find? (dedupPred (sha256 f.buffer) f.originalname) with
      | some dup =>
        rw [hfind] at h
        simp only [Prod.mk.injEq, Except.ok.injEq] at h
        obtain ⟨hr, _⟩ := h
        refine ⟨dup, List.mem_of_find?_eq_some hfind, ?_, ?_⟩
        · rw [← hr]; rfl
        · rw [← hr]; exact mimeOk_projMime _
      | none =>
        rw [hfind] at h
        simp only [Prod.mk.injEq, Except.ok.injEq] at h
        obtain ⟨_, hst⟩ := h
        have := congrArg Store.nextId hst
        simp at this

theorem c9_mimetype_defaulted_witness :
    ∃ d, d ∈ (Store.mk [c9doc] 1).docs ∧ d._id = (projInfo c9doc).id ∧
      mimeOk d.metadata.mimetype (projInfo c9doc).mimetype :=
  c9_mimetype_defaulted.1 (Store.mk [c9doc] 1) (some 0) (projInfo c9doc) rfl

/-- C1 counterexample: when the caller metadata carries a `hash` key, the
spread `...metadata` overrides the computed digest in the stored metadata,
so a second upload of the very same bytes and filename misses the dedup
lookup and writes a second chunk record with a different id. -/
theorem c1_counterexample :
    ((uploadFile tEnv (some tFile) (some tMetaHash) 1 { docs := [], nextId := 0 }).1 =
      .ok { id := 0, filename := "a.txt", size := 1, mimetype := "text/plain", uploadDate := 1 }) ∧
    ((uploadFile tEnv (some tFile) (some tMetaHash) 2
        (uploadFile tEnv (some tFile) (some tMetaHash) 1 { docs := [], nextId := 0 }).2).1 =
      .ok { id := 1, filename := "a.txt", size := 1, mimetype := "text/plain", uploadDate := 2 }) ∧
    ((uploadFile tEnv (some tFile) (some tMetaHash) 2
        (uploadFile tEnv (some tFile) (some tMetaHash) 1 { docs := [], nextId := 0 }).2).2.docs.length = 2) ∧
    (0 : Nat) ≠ 1 :=
  ⟨rfl, rfl, rfl, by decide⟩

/-- C1 amended: after a successful upload of `f`, provided the caller
metadata did not override the `hash` key with a value other than the
content digest, re-uploading the same file dedups: it returns the same id,
performs no write (the store is unchanged), and the result is the
projection of the stored record matching the pair (content digest, exact
filename).  And whenever no stored record matches that pair — in
particular under a different filename with the same bytes — a new record
is appended instead: dedup matches on the pair, not on the hash alone. -/
theorem c1_amended (env : Env) (st st1 : Store) (f : UFile) (m1 m2 : Option Metadata)
    (now1 now2 : Nat) (r1 : FileUploadResult)
    (h1 : uploadFile env (some f) m1 now1 st = (.ok r1, st1))
    (hh : ∀ p, m1 = some p → p.hash = none ∨ p.hash = some (sha256 f.buffer)) :
    (∃ d r2, uploadFile env (some f) m2 now2 st1 = (.ok r2, st1) ∧
      r2.id = r1.id ∧ d ∈ st1.docs ∧ d._id = r1.id ∧
      d.filename = f.originalname ∧ d.metadata.hash = some (sha256 f.buffer) ∧
      r2 = dupResult d) ∧
    (∀ g : UFile, g.buffer = f.buffer → validateFile env g = .ok () →
      (∀ d ∈ st1.docs, ¬ dedupPred (sha256 g.buffer) g.originalname d) →
      ∃ r3 nd, uploadFile env (some g) m2 now2 st1 =
        (.ok r3, { docs := st1.docs ++ [nd], nextId := st1.nextId + 1 })) := by
  simp only [uploadFile] at h1
  cases hv : validateFile env f with
  | error e =>
    rw [hv] at h1
    exact absurd (congrArg Prod.fst h1) (by simp)
  | ok u =>
    rw [hv] at h1
    have huf2 : ∀ d, st1.docs.find? (dedupPred (sha256 f.buffer) f.originalname) = some d →
        uploadFile env (some f) m2 now2 st1 = (.ok (dupResult d), st1) := by
      intro d hd
      simp only [uploadFile, hv, hd]
    constructor
    · cases hfind : st.docs.find? (dedupPred (sha256 f.buffer) f.originalname) with
      | some dup =>
        rw [hfind] at h1
        simp only [Prod.mk.injEq, Except.ok.injEq] at h1
        obtain ⟨hr1, hst1⟩ := h1
        subst hst1
        have hpred := List.find?_some hfind
        simp only [dedupPred, Bool.and_eq_true, beq_iff_eq] at hpred
        refine ⟨dup, dupResult dup, huf2 dup hfind, ?_, List.mem_of_find?_eq_some hfind, ?_,
          hpred.2, hpred.1, rfl⟩
        · rw [← hr1]
        · rw [← hr1]
          rfl
      | none =>
        rw [hfind] at h1
        simp only [Prod.mk.injEq, Except.ok.injEq] at h1
        obtain ⟨hr1, hst1⟩ := h1
        set nd : FileDoc :=
          { _id := st.nextId, filename := f.originalname, length := f.buffer.length,
            uploadDate := now1, metadata := uploadMeta f (sha256 f.buffer) now1 m1,
            content := f.buffer } with hnd
        have hndhash : nd.metadata.hash = some (sha256 f.buffer) := by
          rw [hnd]
          show (uploadMeta f (sha256 f.buffer) now1 m1).hash = some (sha256 f.buffer)
          cases hm1 : m1 with
          | none => rfl
          | some p =>
            rcases hh p hm1 with hp | hp <;>
              simp [uploadMeta, mergeMeta, hp]
        have hndfn : nd.filename = f.originalname := by rw [hnd]
        have hpred : dedupPred (sha256 f.buffer) f.originalname nd = true := by
          unfold dedupPred
          rw [hndhash, hndfn]
          simp
        have hfind1 : st1.docs.find? (dedupPred (sha256 f.buffer) f.originalname) = some nd := by
          rw [← hst1]
          rw [List.find?_append, hfind]
          simp [List.find?_cons, hpred]
        refine ⟨nd, dupResult nd, huf2 nd hfind1, ?_, List.mem_of_find?_eq_some hfind1, ?_,
          rfl, hndhash, rfl⟩
        · rw [← hr1]
          rfl
        · rw [← hr1]
    · intro g hgb hgv hnone
      have hfind1 : st1.docs.find? (dedupPred (sha256 g.buffer) g.originalname) = none :=
        List.find?_eq_none.mpr (by simpa using hnone)
      refine ⟨{ id := st1.nextId, filename := g.originalname, size := g.size,
                mimetype := g.mimetype, uploadDate := now2 },
              { _id := st1.nextId, filename := g.originalname, length := g.buffer.length,
                uploadDate := now2, metadata := uploadMeta g (sha256 g.buffer) now2 m2,
                content := g.buffer }, ?_⟩
      simp only [uploadFile, hgv, hfind1]

theorem c1_amended_witness :
    ∃ d r2, uploadFile tEnv (some tFile) none 2
        (uploadFile tEnv (some tFile) none 1 { docs := [], nextId := 0 }).2 =
      (.ok r2, (uploadFile tEnv (some tFile) none 1 { docs := [], nextId := 0 }).2) ∧
      r2.id = 0 ∧ d ∈ (uploadFile tEnv (some tFile) none 1 { docs := [], nextId := 0 }).2.docs ∧
      d._id = 0 ∧ d.filename = tFile.originalname ∧
      d.metadata.hash = some (sha256 tFile.buffer) ∧ r2 = dupResult d := by
  have h := c1_amended tEnv { docs := [], nextId := 0 }
      (uploadFile tEnv (some tFile) none 1 { docs := [], nextId := 0 }).2 tFile none none 1 2
      { id := 0, filename := "a.txt", size := 1, mimetype := "text/plain", uploadDate := 1 }
      rfl (by intro p hp; cases hp)
  obtain ⟨d, r2, ha, hb, hc, hd, he, hf, hg⟩ := h.1
  exact ⟨d, r2, ha, hb, hc, hd, he, hf, hg⟩

/-- C2 counterexample: replacing `c2A` with content+filename that another
stored record (`c2B`) already holds dedups onto `c2B` inside the internal
upload, so the returned record is `c2B`, whose stored metadata has *no*
`originalReplacedId` — the claim that replace always records the replaced
id in the returned record's metadata is false as stated. -/
theorem c2_counterexample :
    replaceFile tEnv (some 0) (some c2f) none 9 { docs := [c2A, c2B], nextId := 2 } =
      (.ok (dupResult c2B), { docs := [c2B], nextId := 2 }) ∧
    c2B.metadata.originalReplacedId = none ∧
    (dupResult c2B).id = 1 :=
  ⟨rfl, rfl, rfl⟩

/-- C2 amended: over a store whose ids are below `nextId`, a successful
`replaceFile` always returns an id different from the id it was given;
and when no *other* stored record matches the pair (digest of the new
content, its filename) — so the internal upload cannot dedup onto an
existing record — the returned record is freshly written and its stored
metadata carries `originalReplacedId` equal to the replaced id. -/
theorem c2_amended (env : Env) (st st2 : Store) (oid : Nat) (f : UFile)
    (am : Option Metadata) (now : Nat) (r : FileUploadResult)
    (hid : ∀ d ∈ st.docs, d._id < st.nextId)
    (h : replaceFile env (some oid) (some f) am now st = (.ok r, st2)) :
    r.id ≠ oid ∧
    ((∀ d ∈ st.docs, d._id ≠ oid → ¬ dedupPred (sha256 f.buffer) f.originalname d) →
      ∃ nd, nd ∈ st2.docs ∧ nd._id = r.id ∧ nd.metadata.originalReplacedId = some oid) := by
  simp only [replaceFile] at h
  cases hv : validateFile env f with
  | error e =>
    rw [hv] at h
    exact absurd (congrArg Prod.fst h) (by simp)
  | ok u =>
    rw [hv] at h
    cases hfind : st.docs.find? (fun d => d._id == oid) with
    | none =>
      rw [hfind] at h
      exact absurd (congrArg Prod.fst h) (by simp)
    | some ex =>
      rw [hfind] at h
      have hexmem : ex ∈ st.docs := List.mem_of_find?_eq_some hfind
      have hexid : ex._id = oid := by simpa using List.find?_some hfind
      simp only [uploadFile, hv] at h
      cases hfind2 : (st.docs.filter (fun d => !(d._id == oid))).find?
          (dedupPred (sha256 f.buffer) f.originalname) with
      | some dup =>
        rw [hfind2] at h
        simp only [Prod.mk.injEq, Except.ok.injEq] at h
        obtain ⟨hr, hst2⟩ := h
        have hdup := List.mem_of_find?_eq_some hfind2
        rw [List.mem_filter] at hdup
        obtain ⟨hdmem, hdneq⟩ := hdup
        have hdne : dup._id ≠ oid := by simpa using hdneq
        constructor
        · rw [← hr]
          exact hdne
        · intro hno
          exact absurd (List.find?_some hfind2) (by simpa using hno dup hdmem hdne)
      | none =>
        rw [hfind2] at h
        simp only [Prod.mk.injEq, Except.ok.injEq] at h
        obtain ⟨hr, hst2⟩ := h
        have hlt : ex._id < st.nextId := hid ex hexmem
        constructor
        · rw [← hr]
          show st.nextId ≠ oid
          omega
        · intro _
          refine ⟨{ _id := st.nextId, filename := f.originalname, length := f.buffer.length, uploadDate := now, metadata := uploadMeta f (sha256 f.buffer) now (some { (match am with | some a => mergeMeta ex.metadata a | none => ex.metadata) with originalReplacedId := some oid, updatedAt := some now }), content := f.buffer }, ?_, ?_, ?_⟩
          · rw [← hst2]
            exact List.mem_append_right _ (List.mem_singleton_self _)
          · rw [← hr]
          · rfl

theorem c2_amended_witness :
    ({ id := 1, filename := "g", size := 3, mimetype := "t", uploadDate := 9 } : FileUploadResult).id ≠ 0 ∧
    ∃ nd, nd ∈ (replaceFile tEnv (some 0) (some c2f) none 9 { docs := [c2A], nextId := 1 }).2.docs ∧
      nd._id = ({ id := 1, filename := "g", size := 3, mimetype := "t", uploadDate := 9 } : FileUploadResult).id ∧
      nd.metadata.originalReplacedId = some 0 := by
  have hr : replaceFile tEnv (some 0) (some c2f) none 9 { docs := [c2A], nextId := 1 } =
      (.ok { id := 1, filename := "g", size := 3, mimetype := "t", uploadDate := 9 },
       (replaceFile tEnv (some 0) (some c2f) none 9 { docs := [c2A], nextId := 1 }).2) := rfl
  have h := c2_amended tEnv { docs := [c2A], nextId := 1 }
      (replaceFile tEnv (some 0) (some c2f) none 9 { docs := [c2A], nextId := 1 }).2 0 c2f none 9
      { id := 1, filename := "g", size := 3, mimetype := "t", uploadDate := 9 }
      (by decide) hr
  exact ⟨h.1, h.2 (by decide)⟩

/-- C3: at the failing input, the cursor-mode call with text query
"alpha" returns exactly the record whose fields do **not** contain
"alpha" (building the cursor continuation overwrote the text-search
`$or`), while the same query in page mode correctly returns only the
matching record.  This evaluates the code at the failing input; the
text-query claim is the spec's (and the code's own) evident intent. -/
theorem c3_cursor_drops_text_query :
    listFilesAdvanced c3st c3p = .cursorRes [projInfo c3A] none ∧
    containsCI c3A.filename "alpha" = false ∧
    c3A.metadata.originalName = none ∧
    c3A.metadata.description = none ∧
    listFilesAdvanced c3st { c3p with cursor := none } = .pageRes [projInfo c3B] 1 1 := by
  refine ⟨?_, ?_, rfl, rfl, ?_⟩ <;> decide

theorem ltOpt_irrefl (x : Option Nat) : ltOpt x x = false := by
  cases x <;> simp [ltOpt]

theorem ltOpt_asymm {x y : Option Nat} (h : ltOpt x y = true) : ltOpt y x = false := by
  cases x <;> cases y <;> simp [ltOpt] at h ⊢ <;> omega

theorem ltOpt_trans {x y z : Option Nat} (h1 : ltOpt x y = true) (h2 : ltOpt y z = true) :
    ltOpt x z = true := by
  cases x <;> cases y <;> cases z <;> simp [ltOpt] at h1 h2 ⊢ <;> omega

theorem ltOpt_tricho (x y : Option Nat) : ltOpt x y = true ∨ ltOpt y x = true ∨ x = y := by
  cases x <;> cases y <;> simp [ltOpt] <;> omega

theorem docLT_iff (sb : SortBy) (so : SortOrder) (a b : FileDoc) :
    docLT sb so a b = true ↔
      (match so with
       | .asc => ltOpt (keyOf sb a) (keyOf sb b) = true ∨
           (keyOf sb a = keyOf sb b ∧ a._id < b._id)
       | .desc => ltOpt (keyOf sb b) (keyOf sb a) = true ∨
           (keyOf sb a = keyOf sb b ∧ b._id < a._id)) := by
  cases so <;> simp [docLT, Bool.or_eq_true, Bool.and_eq_true, beq_iff_eq]

theorem docLE_iff (sb : SortBy) (so : SortOrder) (a b : FileDoc) :
    docLE sb so a b = true ↔
      docLT sb so a b = true ∨ (keyOf sb a = keyOf sb b ∧ a._id = b._id) := by
  simp [docLE, Bool.or_eq_true, Bool.and_eq_true, beq_iff_eq]

theorem docLT_asymm {sb : SortBy} {so : SortOrder} {a b : FileDoc}
    (h : docLT sb so a b = true) : docLT sb so b a = false := by
  rw [← Bool.not_eq_true]
  intro h2
  rw [docLT_iff] at h h2
  cases so with
  | asc =>
    rcases h with h | ⟨he, hi⟩ <;> rcases h2 with h2 | ⟨h2e, h2i⟩
    · rw [ltOpt_asymm h] at h2; exact Bool.false_ne_true h2
    · rw [h2e] at h; rw [ltOpt_irrefl] at h; exact Bool.false_ne_true h
    · rw [he] at h2; rw [ltOpt_irrefl] at h2; exact Bool.false_ne_true h2
    · omega
  | desc =>
    rcases h with h | ⟨he, hi⟩ <;> rcases h2 with h2 | ⟨h2e, h2i⟩
    · rw [ltOpt_asymm h] at h2; exact Bool.false_ne_true h2
    · rw [h2e] at h; rw [ltOpt_irrefl] at h; exact Bool.false_ne_true h
    · rw [he] at h2; rw [ltOpt_irrefl] at h2; exact Bool.false_ne_true h2
    · omega

theorem docLT_irrefl (sb : SortBy) (so : SortOrder) (a : FileDoc) :
    docLT sb so a a = false := by
  rw [← Bool.not_eq_true]
  intro h
  have := docLT_asymm h
  rw [h] at this
  exact absurd this (by simp)

theorem docLT_trans {sb : SortBy} {so : SortOrder} {a b c : FileDoc}
    (h1 : docLT sb so a b = true) (h2 : docLT sb so b c = true) :
    docLT sb so a c = true := by
  rw [docLT_iff] at h1 h2 ⊢
  cases so with
  | asc =>
    rcases h1 with h1 | ⟨h1e, h1i⟩ <;> rcases h2 with h2 | ⟨h2e, h2i⟩
    · exact Or.inl (ltOpt_trans h1 h2)
    · exact Or.inl (h2e ▸ h1)
    · exact Or.inl (h1e ▸ h2)
    · exact Or.inr ⟨h1e.trans h2e, by omega⟩
  | desc =>
    rcases h1 with h1 | ⟨h1e, h1i⟩ <;> rcases h2 with h2 | ⟨h2e, h2i⟩
    · exact Or.inl (ltOpt_trans h2 h1)
    · exact Or.inl (h2e ▸ h1)
    · exact Or.inl (h1e ▸ h2)
    · exact Or.inr ⟨h1e.trans h2e, by omega⟩

theorem docLT_of_docLE_ne {sb : SortBy} {so : SortOrder} {a b : FileDoc}
    (h : docLE sb so a b = true) (hne : a._id ≠ b._id) : docLT sb so a b = true := by
  rw [docLE_iff] at h
  rcases h with h | ⟨_, h⟩
  · exact h
  · exact absurd h hne

theorem docLE_of_docLT {sb : SortBy} {so : SortOrder} {a b : FileDoc}
    (h : docLT sb so a b = true) : docLE sb so a b = true := by
  rw [docLE_iff]
  exact Or.inl h

theorem docLE_total (sb : SortBy) (so : SortOrder) (a b : FileDoc) :
    docLE sb so a b = true ∨ docLE sb so b a = true := by
  rcases ltOpt_tricho (keyOf sb a) (keyOf sb b) with h | h | h
  · cases so with
    | asc => exact Or.inl (docLE_of_docLT (by rw [docLT_iff]; exact Or.inl h))
    | desc => exact Or.inr (docLE_of_docLT (by rw [docLT_iff]; exact Or.inl h))
  · cases so with
    | asc => exact Or.inr (docLE_of_docLT (by rw [docLT_iff]; exact Or.inl h))
    | desc => exact Or.inl (docLE_of_docLT (by rw [docLT_iff]; exact Or.inl h))
  · rcases Nat.lt_trichotomy a._id b._id with hi | hi | hi
    · cases so with
      | asc => exact Or.inl (docLE_of_docLT (by rw [docLT_iff]; exact Or.inr ⟨h, hi⟩))
      | desc => exact Or.inr (docLE_of_docLT (by rw [docLT_iff]; exact Or.inr ⟨h.symm, hi⟩))
    · exact Or.inl (by rw [docLE_iff]; exact Or.inr ⟨h, hi⟩)
    · cases so with
      | asc => exact Or.inr (docLE_of_docLT (by rw [docLT_iff]; exact Or.inr ⟨h.symm, hi⟩))
      | desc => exact Or.inl (docLE_of_docLT (by rw [docLT_iff]; exact Or.inr ⟨h, hi⟩))

theorem docLE_trans {sb : SortBy} {so : SortOrder} {a b c : FileDoc}
    (h1 : docLE sb so a b = true) (h2 : docLE sb so b c = true) :
    docLE sb so a c = true := by
  rw [docLE_iff] at h1 h2 ⊢
  rcases h1 with h1 | ⟨h1e, h1i⟩ <;> rcases h2 with h2 | ⟨h2e, h2i⟩
  · exact Or.inl (docLT_trans h1 h2)
  · rw [docLT_iff] at h1 ⊢
    cases so with
    | asc =>
      rcases h1 with h1 | ⟨he, hi⟩
      · exact Or.inl (Or.inl (h2e ▸ h1))
      · exact Or.inl (Or.inr ⟨he.trans h2e, h2i ▸ hi⟩)
    | desc =>
      rcases h1 with h1 | ⟨he, hi⟩
      · exact Or.inl (Or.inl (h2e ▸ h1))
      · exact Or.inl (Or.inr ⟨he.trans h2e, h2i ▸ hi⟩)
  · rw [docLT_iff] at h2 ⊢
    cases so with
    | asc =>
      rcases h2 with h2 | ⟨he, hi⟩
      · exact Or.inl (Or.inl (h1e ▸ h2))
      · exact Or.inl (Or.inr ⟨h1e.trans he, h1i ▸ hi⟩)
    | desc =>
      rcases h2 with h2 | ⟨he, hi⟩
      · exact Or.inl (Or.inl (h1e ▸ h2))
      · exact Or.inl (Or.inr ⟨h1e.trans he, h1i ▸ hi⟩)
  · exact Or.inr ⟨h1e.trans h2e, h1i.trans h2i⟩

theorem sorted_orderedInsert (le : FileDoc → FileDoc → Bool)
    (htot : ∀ x y, (le x y || le y x) = true)
    (htr : ∀ x y z, le x y = true → le y z = true → le x z = true)
    (a : FileDoc) (l : List FileDoc) (h : l.Pairwise (fun x y => le x y = true)) :
    (orderedInsert le a l).Pairwise (fun x y => le x y = true) := by
  induction l with
  | nil => simp [orderedInsert]
  | cons b t ih =>
    rw [List.pairwise_cons] at h
    obtain ⟨hb, ht⟩ := h
    by_cases hab : le a b = true
    · rw [orderedInsert, if_pos hab]
      refine List.pairwise_cons.mpr ⟨?_, List.pairwise_cons.mpr ⟨hb, ht⟩⟩
      intro x hx
      rcases List.mem_cons.mp hx with rfl | hx
      · exact hab
      · exact htr a b x hab (hb x hx)
    · rw [orderedInsert, if_neg hab]
      have hba : le b a = true := by
        have h := htot a b
        rw [Bool.or_eq_true] at h
        rcases h with h | h
        · exact absurd h hab
        · exact h
      refine List.pairwise_cons.mpr ⟨?_, ih ht⟩
      intro x hx
      have hx2 := (orderedInsert_perm le a t).mem_iff.mp hx
      rcases List.mem_cons.mp hx2 with rfl | hx2
      · exact hba
      · exact hb x hx2

theorem sorted_isort (le : FileDoc → FileDoc → Bool)
    (htot : ∀ x y, (le x y || le y x) = true)
    (htr : ∀ x y z, le x y = true → le y z = true → le x z = true)
    (l : List FileDoc) : (isort le l).Pairwise (fun x y => le x y = true) := by
  induction l with
  | nil => simp [isort]
  | cons a t ih => exact sorted_orderedInsert le htot htr a (isort le t) ih

theorem sortDocs_sorted (sb : SortBy) (so : SortOrder) (l : List FileDoc) :
    (sortDocs sb so l).Pairwise (fun x y => docLE sb so x y = true) := by
  refine sorted_isort _ ?_ ?_ l
  · intro x y
    rcases docLE_total sb so x y with h | h <;> simp [h]
  · intro x y z h1 h2
    exact docLE_trans h1 h2

theorem pairwise_docLT_of_sorted {sb : SortBy} {so : SortOrder} {l : List FileDoc}
    (hs : l.Pairwise (fun x y => docLE sb so x y = true))
    (hn : (l.map (fun d => d._id)).Nodup) :
    l.Pairwise (fun x y => docLT sb so x y = true) := by
  have hne : l.Pairwise (fun x y => x._id ≠ y._id) := List.pairwise_map.mp hn
  exact (hs.and hne).imp (fun h => docLT_of_docLE_ne h.1 h.2)

theorem eq_of_perm_of_pairwise_docLT {sb : SortBy} {so : SortOrder} :
    ∀ {l1 l2 : List FileDoc}, l1.Perm l2 →
      l1.Pairwise (fun x y => docLT sb so x y = true) →
      l2.Pairwise (fun x y => docLT sb so x y = true) → l1 = l2 := by
  intro l1
  induction l1 with
  | nil =>
    intro l2 hp _ _
    exact (hp.symm.eq_nil).symm
  | cons a t ih =>
    intro l2 hp h1 h2
    have ha2 : a ∈ l2 := hp.mem_iff.mp (List.mem_cons_self a t)
    cases l2 with
    | nil => exact absurd hp.eq_nil (by simp)
    | cons b t2 =>
      have hab : a = b := by
        rcases List.mem_cons.mp ha2 with h | ha2t
        · exact h
        · exfalso
          have hb1 : b ∈ a :: t := hp.mem_iff.mpr (List.mem_cons_self b t2)
          have hba : docLT sb so b a = true :=
            (List.pairwise_cons.mp h2).1 a ha2t
          rcases List.mem_cons.mp hb1 with rfl | hb1t
          · rw [docLT_irrefl] at hba
            exact absurd hba (by simp)
          · have hab2 : docLT sb so a b = true := (List.pairwise_cons.mp h1).1 b hb1t
            rw [docLT_asymm hab2] at hba
            exact absurd hba (by simp)
      subst hab
      have hp2 : t.Perm t2 := hp.cons_inv
      rw [ih hp2 (List.pairwise_cons.mp h1).2 (List.pairwise_cons.mp h2).2]

theorem find?_id_of_nodup {l : List FileDoc}
    (hn : (l.map (fun d => d._id)).Nodup) {m : FileDoc} (hm : m ∈ l) :
    l.find? (fun d => d._id == m._id) = some m := by
  induction l with
  | nil => cases hm
  | cons a t ih =>
    rw [List.map_cons, List.nodup_cons] at hn
    rw [List.find?_cons]
    by_cases ha : (a._id == m._id) = true
    · have ham : a._id = m._id := by simpa using ha
      rcases List.mem_cons.mp hm with rfl | hmt
      · simp [ha]
      · exact absurd (ham ▸ List.mem_map_of_mem (fun d => d._id) hmt) hn.1
    · have ham : a._id ≠ m._id := by simpa using ha
      have hmt : m ∈ t := by
        rcases List.mem_cons.mp hm with rfl | hmt
        · exact absurd rfl ham
        · exact hmt
      simp only [ha]
      exact ih hn.2 hmt

theorem filter_docLT_middle {sb : SortBy} {so : SortOrder} {A B : List FileDoc} {m : FileDoc}
    (h : (A ++ m :: B).Pairwise (fun x y => docLT sb so x y = true)) :
    (A ++ m :: B).filter (fun d => docLT sb so m d) = B := by
  rw [List.filter_append]
  obtain ⟨hA, hmB, hcross⟩ := List.pairwise_append.mp h
  have h1 : A.filter (fun d => docLT sb so m d) = [] := by
    rw [List.filter_eq_nil_iff]
    intro a ha
    have ham : docLT sb so a m = true := hcross a ha m (List.mem_cons_self m B)
    rw [docLT_asymm ham]
    simp
  have h2 : (m :: B).filter (fun d => docLT sb so m d) = B := by
    rw [List.filter_cons]
    have hmm : (docLT sb so m m) = false := docLT_irrefl sb so m
    rw [hmm]
    simp only [Bool.false_eq_true, if_false]
    exact List.filter_eq_self.mpr (fun b hb => (List.pairwise_cons.mp hmB).1 b hb)
  rw [h1, h2, List.nil_append]

theorem matchesFilter_trivial (d : FileDoc) :
    matchesFilter { orClause := none, mimetype := none } d = true := rfl

theorem filter_trivial (l : List FileDoc) :
    l.filter (matchesFilter { orClause := none, mimetype := none }) = l :=
  List.filter_eq_self.mpr (fun d _ => matchesFilter_trivial d)

theorem mtake_pos {L : Nat} (hL : 0 < L) (l : List FileDoc) : mtake L l = l.take L := by
  unfold mtake
  have : (L == 0) = false := by simp; omega
  rw [this]
  simp

theorem matchesOr_cursorCont_eq_docLT (sb : SortBy) (so : SortOrder) (m d : FileDoc)
    (hupd : sb = .updatedAt →
      m.metadata.updatedAt.isSome = true ∧ d.metadata.updatedAt.isSome = true) :
    matchesOr (.cursorCont sb so (contValue sb m) m._id) d = docLT sb so m d := by
  rw [Bool.eq_iff_iff]
  cases sb with
  | size =>
    cases so <;>
      (simp only [matchesOr, contValue, keyOf, docLT, cmpDir, ltOpt, Bool.or_eq_true,
        Bool.and_eq_true, beq_iff_eq, Option.some.injEq, decide_eq_true_eq]
       omega)
  | createdAt =>
    cases so <;>
      (simp only [matchesOr, contValue, keyOf, docLT, cmpDir, ltOpt, Bool.or_eq_true,
        Bool.and_eq_true, beq_iff_eq, Option.some.injEq, decide_eq_true_eq]
       omega)
  | updatedAt =>
    obtain ⟨hm, hd⟩ := hupd rfl
    obtain ⟨um, hum⟩ := Option.isSome_iff_exists.mp hm
    obtain ⟨ud, hud⟩ := Option.isSome_iff_exists.mp hd
    cases so <;>
      (simp only [matchesOr, contValue, keyOf, docLT, cmpDir, hum, hud, Option.getD_some,
        ltOpt, Bool.or_eq_true, Bool.and_eq_true, beq_iff_eq, Option.some.injEq,
        decide_eq_true_eq]
       omega)

theorem cursorBase_invalid (st : Store) (sb : SortBy) (so : SortOrder) :
    cursorBase st sb so none = sortDocs sb so st.docs := by
  unfold cursorBase cursorOr
  rw [filter_trivial]

theorem cursorBase_after (st : Store) (sb : SortBy) (so : SortOrder) (m : FileDoc)
    (hnodup : (st.docs.map (fun d => d._id)).Nodup)
    (hupd : sb = .updatedAt → ∀ d ∈ st.docs, d.metadata.updatedAt.isSome = true)
    (hmem : m ∈ st.docs) :
    cursorBase st sb so (some m._id) =
      (sortDocs sb so st.docs).filter (fun d => docLT sb so m d) := by
  have hfind : st.docs.find? (fun d => d._id == m._id) = some m :=
    find?_id_of_nodup hnodup hmem
  simp only [cursorBase, cursorOr, hfind]
  have hfeq : st.docs.filter (matchesFilter
      { orClause := some (.cursorCont sb so (contValue sb m) m._id), mimetype := none }) =
      st.docs.filter (fun d => docLT sb so m d) := by
    refine List.filter_congr ?_
    intro d hd
    have hx := matchesOr_cursorCont_eq_docLT sb so m d
      (fun hsb => ⟨hupd hsb m hmem, hupd hsb d hd⟩)
    simp only [matchesFilter, Bool.and_true]
    exact hx
  rw [hfeq]
  have hnS : ((sortDocs sb so st.docs).map (fun d => d._id)).Nodup :=
    ((sortDocs_perm sb so st.docs).map (fun d => d._id)).nodup_iff.mpr hnodup
  have hSlt : (sortDocs sb so st.docs).Pairwise (fun x y => docLT sb so x y = true) :=
    pairwise_docLT_of_sorted (sortDocs_sorted sb so st.docs) hnS
  refine @eq_of_perm_of_pairwise_docLT sb so _ _ ?_ ?_ ?_
  · exact (sortDocs_perm sb so _).trans
      ((sortDocs_perm sb so st.docs).symm.filter (fun d => docLT sb so m d))
  · have hnF : ((st.docs.filter (fun d => docLT sb so m d)).map (fun d => d._id)).Nodup := by
      refine List.Nodup.sublist ?_ hnodup
      exact (List.filter_sublist st.docs).map (fun d => d._id)
    exact pairwise_docLT_of_sorted (sortDocs_sorted sb so _)
      (((sortDocs_perm sb so _).map (fun d => d._id)).nodup_iff.mpr hnF)
  · exact hSlt.sublist (List.filter_sublist _)

theorem listFA_cursor_eq (st : Store) (sb : SortBy) (so : SortOrder) (L : Nat) (c : OidStr) :
    listFilesAdvanced st (cursorParams sb so L c) =
      .cursorRes ((mtake L (cursorBase st sb so c)).map projInfo)
        (if ((mtake L (cursorBase st sb so c)).length == L) = true
         then (mtake L (cursorBase st sb so c)).getLast?.map (fun d => d._id) else none) := by
  cases c with
  | none =>
    simp [listFilesAdvanced, cursorParams, cursorBase, cursorOr, baseFilter]
  | some cid =>
    cases hfind : st.docs.find? (fun d => d._id == cid) with
    | none =>
      simp [listFilesAdvanced, cursorParams, cursorBase, cursorOr, baseFilter, hfind]
    | some lastDoc =>
      simp [listFilesAdvanced, cursorParams, cursorBase, cursorOr, baseFilter, hfind]

theorem listFA_page_eq (st : Store) (sb : SortBy) (so : SortOrder) (L : Nat) (pg : Nat)
    (hpg : 1 ≤ pg) :
    listFilesAdvanced st (pageParams sb so L pg) =
      .pageRes ((mtake L ((sortDocs sb so st.docs).drop ((pg - 1) * L))).map projInfo)
        pg st.docs.length := by
  have hpos : pg > 0 := hpg
  simp [listFilesAdvanced, pageParams, baseFilter, hpos, filter_trivial]

theorem pageItems_eq (st : Store) (sb : SortBy) (so : SortOrder) (L pg : Nat)
    (hpg : 1 ≤ pg) :
    pageItems st sb so L pg =
      ((mtake L ((sortDocs sb so st.docs).drop ((pg - 1) * L))).map projInfo) := by
  unfold pageItems
  rw [listFA_page_eq st sb so L pg hpg]

theorem pageWalkAux_eq (st : Store) (sb : SortBy) (so : SortOrder) (L : Nat) (hL : 0 < L) :
    ∀ fuel q, (sortDocs sb so st.docs).length - q * L ≤ fuel →
      pageWalkAux st sb so L fuel (q + 1) =
        ((sortDocs sb so st.docs).drop (q * L)).map (fun d => d._id) := by
  intro fuel
  induction fuel with
  | zero =>
    intro q hlen
    have h0 : (sortDocs sb so st.docs).drop (q * L) = [] := by
      have hld := List.length_drop (q * L) (sortDocs sb so st.docs)
      exact List.eq_nil_of_length_eq_zero (by omega)
    rw [h0]
    rfl
  | succ fuel ih =>
    intro q hlen
    have hstep : pageItems st sb so L (q + 1) =
        (((sortDocs sb so st.docs).drop (q * L)).take L).map projInfo := by
      have h := pageItems_eq st sb so L (q + 1) (by omega)
      rw [mtake_pos hL] at h
      simpa using h
    simp only [pageWalkAux]
    rw [hstep]
    by_cases hnil : (sortDocs sb so st.docs).drop (q * L) = []
    · rw [hnil]
      simp
    · have htake_ne : (((sortDocs sb so st.docs).drop (q * L)).take L) ≠ [] := by
        intro h0
        have hc := congrArg List.length h0
        rw [List.length_take] at hc
        simp only [List.length_nil] at hc
        rw [Nat.min_eq_zero_iff] at hc
        rcases hc with hc | hc
        · omega
        · exact hnil (List.eq_nil_of_length_eq_zero hc)
      have hcond : ((((sortDocs sb so st.docs).drop (q * L)).take L).map projInfo).isEmpty
          = false := by
        rw [← Bool.not_eq_true, List.isEmpty_iff]
        intro hx
        exact htake_ne (by simpa using hx)
      rw [hcond]
      simp only [Bool.false_eq_true, if_false]
      have hmul : (q + 1) * L = q * L + L := Nat.succ_mul q L
      have hrec := ih (q + 1) (by rw [hmul]; omega)
      rw [hrec]
      have hdd : ((sortDocs sb so st.docs).drop (q * L)).drop L =
          (sortDocs sb so st.docs).drop ((q + 1) * L) := by
        rw [List.drop_drop]
        congr 1
        ring
      rw [← hdd]
      have hmapmap : ((((sortDocs sb so st.docs).drop (q * L)).take L).map projInfo).map
          (fun i => i.id) =
          (((sortDocs sb so st.docs).drop (q * L)).take L).map (fun d => d._id) := by
        rw [List.map_map]
        exact List.map_congr_left (fun d _ => rfl)
      rw [hmapmap, ← List.map_append, List.take_append_drop]

theorem pageWalk_eq (st : Store) (sb : SortBy) (so : SortOrder) (L : Nat) (hL : 0 < L) :
    pageWalk st sb so L = (sortDocs sb so st.docs).map (fun d => d._id) := by
  unfold pageWalk
  have hlen := (sortDocs_perm sb so st.docs).length_eq
  have h := pageWalkAux_eq st sb so L hL (st.docs.length + 1) 0 (by omega)
  simpa using h

theorem cursorWalkAux_eq (st : Store) (sb : SortBy) (so : SortOrder) (L : Nat) (hL : 0 < L)
    (hnodup : (st.docs.map (fun d => d._id)).Nodup)
    (hupd : sb = .updatedAt → ∀ d ∈ st.docs, d.metadata.updatedAt.isSome = true) :
    ∀ fuel k c, cursorBase st sb so c = (sortDocs sb so st.docs).drop k →
      (sortDocs sb so st.docs).length - k ≤ fuel →
      cursorWalkAux st sb so L fuel c =
        ((sortDocs sb so st.docs).drop k).map (fun d => d._id) := by
  intro fuel
  induction fuel with
  | zero =>
    intro k c hbase hlen
    have h0 : (sortDocs sb so st.docs).drop k = [] := by
      have hld := List.length_drop k (sortDocs sb so st.docs)
      exact List.eq_nil_of_length_eq_zero (by omega)
    rw [h0]
    rfl
  | succ fuel ih =>
    intro k c hbase hlen
    set S := sortDocs sb so st.docs with hS
    have hstep := listFA_cursor_eq st sb so L c
    rw [hbase, mtake_pos hL] at hstep
    set C := (S.drop k).take L with hC
    have hunfold : cursorWalkAux st sb so L (fuel + 1) c =
        (cursorStep st sb so L c).1.map (fun i => i.id) ++
          (match (cursorStep st sb so L c).2 with
           | some nid => cursorWalkAux st sb so L fuel (some nid)
           | none => []) := rfl
    have hmapmap : (C.map projInfo).map (fun i => i.id) = C.map (fun d => d._id) := by
      rw [List.map_map]
      exact List.map_congr_left (fun d _ => rfl)
    by_cases hfull : (C.length == L) = true
    · have hfl : C.length = L := by simpa using hfull
      have hne : C ≠ [] := by
        intro h0
        rw [h0] at hfl
        simp at hfl
        omega
      have hglast := List.getLast?_eq_getLast _ hne
      rw [if_pos hfull, hglast] at hstep
      set m := C.getLast hne with hm
      have hcs : cursorStep st sb so L c = (C.map projInfo, some m._id) := by
        unfold cursorStep
        rw [hstep]
        rfl
      have hone : cursorWalkAux st sb so L (fuel + 1) c =
          (C.map projInfo).map (fun i => i.id) ++ cursorWalkAux st sb so L fuel (some m._id) := by
        rw [hunfold, hcs]
      have hmem_take : m ∈ C := List.getLast_mem hne
      have hmemS : m ∈ st.docs :=
        mem_sortDocs.mp (List.mem_of_mem_drop (List.mem_of_mem_take hmem_take))
      have hLle : L ≤ (S.drop k).length := by
        rw [hC, List.length_take] at hfl
        omega
      have hnS : (S.map (fun d => d._id)).Nodup :=
        ((sortDocs_perm sb so st.docs).map (fun d => d._id)).nodup_iff.mpr hnodup
      have hSlt : S.Pairwise (fun x y => docLT sb so x y = true) :=
        pairwise_docLT_of_sorted (sortDocs_sorted sb so st.docs) hnS
      have hsplit : S = (S.take k ++ C.dropLast) ++ (m :: S.drop (k + L)) := by
        conv_lhs => rw [← List.take_append_drop (k + L) S, List.take_add, ← hC,
          ← List.dropLast_concat_getLast hne]
        simp [List.append_assoc]
      have hfilter : S.filter (fun d => docLT sb so m d) = S.drop (k + L) := by
        conv_lhs => rw [hsplit]
        exact filter_docLT_middle (hsplit ▸ hSlt)
      have hbase2 : cursorBase st sb so (some m._id) = S.drop (k + L) :=
        (cursorBase_after st sb so m hnodup hupd hmemS).trans hfilter
      have hld := List.length_drop k S
      have hrec := ih (k + L) (some m._id) hbase2 (by omega)
      rw [hone, hmapmap, hrec]
      have hCd : (S.drop k).drop L = S.drop (k + L) := by
        rw [List.drop_drop]
      rw [← hCd, ← List.map_append, hC, List.take_append_drop]
    · rw [if_neg hfull] at hstep
      have hcs : cursorStep st sb so L c = (C.map projInfo, none) := by
        unfold cursorStep
        rw [hstep]
      have hone : cursorWalkAux st sb so L (fuel + 1) c =
          (C.map projInfo).map (fun i => i.id) ++ [] := by
        rw [hunfold, hcs]
      have hlt : (S.drop k).length < L := by
        rcases Nat.lt_or_ge (S.drop k).length L with h | h
        · exact h
        · exfalso
          apply hfull
          rw [hC, List.length_take]
          simp only [beq_iff_eq]
          omega
      rw [hone, hmapmap, List.append_nil, hC, List.take_of_length_le (Nat.le_of_lt hlt)]

theorem cursorWalk_eq (st : Store) (sb : SortBy) (so : SortOrder) (L : Nat) (hL : 0 < L)
    (hnodup : (st.docs.map (fun d => d._id)).Nodup)
    (hupd : sb = .updatedAt → ∀ d ∈ st.docs, d.metadata.updatedAt.isSome = true) :
    cursorWalk st sb so L = (sortDocs sb so st.docs).map (fun d => d._id) := by
  unfold cursorWalk
  have hlen := (sortDocs_perm sb so st.docs).length_eq
  have h := cursorWalkAux_eq st sb so L hL hnodup hupd (st.docs.length + 1) 0 none
    (by rw [List.drop_zero]; exact cursorBase_invalid st sb so) (by omega)
  simpa using h

/-- C5 counterexample: sorting by last-update time over a store where one
record has no `metadata.updatedAt`, the page-mode walk enumerates both
ids but the cursor-mode walk omits the record without `updatedAt` (the
continuation filter `metadata.updatedAt $lt v` never matches a missing
field), so the two walks do not enumerate the same set. -/
theorem c5_counterexample :
    pageWalk c5st .updatedAt .desc 1 = [0, 1] ∧
    cursorWalk c5st .updatedAt .desc 1 = [0] ∧
    1 ∈ pageWalk c5st .updatedAt .desc 1 ∧
    1 ∉ cursorWalk c5st .updatedAt .desc 1 := by
  refine ⟨?_, ?_, ?_, ?_⟩ <;> decide

/-- C5 amended: over a fixed unfiltered dataset with unique ids and a
positive page size, walking page mode to completion and walking cursor
mode to completion enumerate exactly the same ids (in the same order),
with no duplicates and no omissions — for the size and creation-time sort
keys in both directions unconditionally, and for the last-update-time
key whenever every record carries `metadata.updatedAt` (the
counterexample shows it fails otherwise). -/
theorem c5_amended (st : Store) (sb : SortBy) (so : SortOrder) (L : Nat) (hL : 0 < L)
    (hnodup : (st.docs.map (fun d => d._id)).Nodup)
    (hupd : sb = .updatedAt → ∀ d ∈ st.docs, d.metadata.updatedAt.isSome = true) :
    cursorWalk st sb so L = pageWalk st sb so L ∧
    (pageWalk st sb so L).Nodup ∧
    (pageWalk st sb so L).Perm (st.docs.map (fun d => d._id)) := by
  have hpw := pageWalk_eq st sb so L hL
  have hcw := cursorWalk_eq st sb so L hL hnodup hupd
  refine ⟨hcw.trans hpw.symm, ?_, ?_⟩
  · rw [hpw]
    exact ((sortDocs_perm sb so st.docs).map (fun d => d._id)).nodup_iff.mpr hnodup
  · rw [hpw]
    exact (sortDocs_perm sb so st.docs).map (fun d => d._id)

theorem c5_amended_witness :
    cursorWalk c5st .size .asc 1 = pageWalk c5st .size .asc 1 ∧
    (pageWalk c5st .size .asc 1).Nodup ∧
    (pageWalk c5st .size .asc 1).Perm (c5st.docs.map (fun d => d._id)) :=
  c5_amended c5st .size .asc 1 (by decide) (by decide)
    (fun h => absurd h (by decide))
